import Mathlib

/-!
Shallow embedding of the SAFE Foster Program dashboard metric pipeline
(`SAFE.py`).

Raw spreadsheet / GeoJSON cells that the script coerces with `astype(str)`
are modelled as `RawField` (a cell read either as a number or as a string);
dates are day ordinals (`Option Int`, with `none` standing for pandas `NaT`).
The pandas operations the script uses — `astype(str)`, `drop_duplicates`
(first-occurrence), `groupby` + `agg` with NaN-skipping `min`/`max`/`sum`
(an all-NaN group sums to `0`), `value_counts` (NaN-dropping), `nunique`,
and a left `merge` followed by `fillna(0)` — are modelled on lists.

Group keys are kept in first-occurrence order; every property proved below
is insensitive to the sorted key order pandas' `groupby` would produce,
because group outputs are consumed either through key lookup or through
order-insensitive aggregates (sums, means, minima, maxima).
-/

namespace SAFE

/-- A raw cell value as read from the spreadsheet / GeoJSON: either a number
or a string.  `pd.astype(str)` renders a number with `str(...)`, which does
not zero-pad. -/
inductive RawField where
  | num (n : Int)
  | str (s : String)
deriving DecidableEq

/-- `astype(str)` on a cell: numbers are rendered without padding, strings
are kept verbatim. -/
def RawField.astype_str : RawField → String
  | RawField.num n => toString n
  | RawField.str s => s

/-- One row of the record table (`SAFE FOSTER DATASET.xlsx` after the
preprocessing on lines 38–44 of `SAFE.py`).  Dates are day ordinals with
`none` = `NaT`. -/
structure Record where
  pid : String
  animalId : String
  animalType : Option String
  gender : String
  preAltered : String
  currentAltered : String
  intakeDate : Option Int
  fosterStartDate : Option Int
  fosterEndDate : Option Int
  zipcode : RawField
deriving DecidableEq

/-- One row of the geometry table (`erie_survey_zips.geojson`): the
`ZCTA5CE10` zip identifier plus an opaque polygon payload. -/
structure GeoRow where
  zcta : RawField
  geometry : String
deriving DecidableEq

section ListOps

variable {α : Type} {β : Type} {κ : Type} [DecidableEq κ]

/-- `drop_duplicates(key)`: keep each row whose key has not been seen yet
(first occurrence wins), threading the set of seen keys. -/
def dedupByAux (key : α → κ) : List κ → List α → List α
  | _, [] => []
  | seen, x :: xs =>
    if key x ∈ seen then dedupByAux key seen xs
    else x :: dedupByAux key (key x :: seen) xs

/-- pandas `drop_duplicates` on a key column, keeping first occurrences. -/
def dedupBy (key : α → κ) (l : List α) : List α := dedupByAux key [] l

/-- Distinct values of a list, in first-occurrence order. -/
def firstOccs (l : List κ) : List κ := dedupBy id l

/-- Number of occurrences of `k` in `l`. -/
def cnt (l : List κ) (k : κ) : Nat := (l.filter (fun x => decide (x = k))).length

/-- `groupby(key).size()`: one `(key, groupSize)` pair per distinct value. -/
def tally (l : List κ) : List (κ × Nat) := (firstOccs l).map (fun k => (k, cnt l k))

/-- Association-list lookup (first matching key wins), as a left merge does. -/
def alookup : List (κ × β) → κ → Option β
  | [], _ => none
  | (k, v) :: rest, k₀ => if k₀ = k then some v else alookup rest k₀

/-- The seen-key set after `dedupByAux` has traversed `l`. -/
def seenAfter (key : α → κ) : List κ → List α → List κ
  | seen, [] => seen
  | seen, x :: xs =>
    if key x ∈ seen then seenAfter key seen xs
    else seenAfter key (key x :: seen) xs

theorem dedupByAux_subset {key : α → κ} {seen : List κ} {l : List α} {x : α}
    (hx : x ∈ dedupByAux key seen l) : x ∈ l := by
  induction l generalizing seen with
  | nil => simp [dedupByAux] at hx
  | cons y ys ih =>
    simp only [dedupByAux] at hx
    by_cases h : key y ∈ seen
    · simp only [if_pos h] at hx
      exact List.mem_cons_of_mem _ (ih hx)
    · simp only [if_neg h, List.mem_cons] at hx
      rcases hx with h1 | h2
      · exact h1 ▸ List.mem_cons_self _ _
      · exact List.mem_cons_of_mem _ (ih h2)

theorem subset_seenAfter {key : α → κ} {seen : List κ} {l : List α} {k : κ}
    (hk : k ∈ seen) : k ∈ seenAfter key seen l := by
  induction l generalizing seen with
  | nil => simpa [seenAfter] using hk
  | cons y ys ih =>
    simp only [seenAfter]
    by_cases h : key y ∈ seen
    · simp only [if_pos h]; exact ih hk
    · simp only [if_neg h]; exact ih (List.mem_cons_of_mem _ hk)

theorem key_mem_seenAfter {key : α → κ} {seen : List κ} {l : List α} {x : α}
    (hx : x ∈ l) : key x ∈ seenAfter key seen l := by
  induction l generalizing seen with
  | nil => simp at hx
  | cons y ys ih =>
    simp only [seenAfter]
    rcases List.mem_cons.mp hx with h1 | h2
    · by_cases h : key y ∈ seen
      · simp only [if_pos h]; exact h1 ▸ subset_seenAfter h
      · simp only [if_neg h]
        exact h1 ▸ subset_seenAfter (List.mem_cons_self _ _)
    · by_cases h : key y ∈ seen
      · simp only [if_pos h]; exact ih h2
      · simp only [if_neg h]; exact ih h2

theorem dedupByAux_append (key : α → κ) (seen : List κ) (l₁ l₂ : List α) :
    dedupByAux key seen (l₁ ++ l₂) =
      dedupByAux key seen l₁ ++ dedupByAux key (seenAfter key seen l₁) l₂ := by
  induction l₁ generalizing seen with
  | nil => simp [dedupByAux, seenAfter]
  | cons y ys ih =>
    simp only [List.cons_append, dedupByAux, seenAfter]
    by_cases h : key y ∈ seen
    · simp only [if_pos h]; exact ih seen
    · simp only [if_neg h, List.cons_append, List.cons.injEq, true_and]
      exact ih (key y :: seen)

theorem dedupByAux_eq_nil {key : α → κ} {seen : List κ} {l : List α}
    (h : ∀ x ∈ l, key x ∈ seen) : dedupByAux key seen l = [] := by
  induction l with
  | nil => simp [dedupByAux]
  | cons y ys ih =>
    simp only [dedupByAux, if_pos (h y (List.mem_cons_self _ _))]
    exact ih (fun x hx => h x (List.mem_cons_of_mem _ hx))

/-- Appending a full copy of the table changes nothing after
`drop_duplicates`. -/
theorem dedupBy_append_self (key : α → κ) (l : List α) :
    dedupBy key (l ++ l) = dedupBy key l := by
  unfold dedupBy
  rw [dedupByAux_append]
  have h : dedupByAux key (seenAfter key [] l) l = [] :=
    dedupByAux_eq_nil (fun x hx => key_mem_seenAfter hx)
  rw [h, List.append_nil]

theorem mem_dedupByAux_id {seen : List κ} {l : List κ} {k : κ} :
    k ∈ dedupByAux id seen l ↔ k ∈ l ∧ k ∉ seen := by
  induction l generalizing seen with
  | nil => simp [dedupByAux]
  | cons y ys ih =>
    simp only [dedupByAux, id]
    by_cases h : y ∈ seen
    · simp only [if_pos h, ih, List.mem_cons]
      constructor
      · rintro ⟨h1, h2⟩; exact ⟨Or.inr h1, h2⟩
      · rintro ⟨h1 | h1, h2⟩
        · exact absurd (h1 ▸ h) h2
        · exact ⟨h1, h2⟩
    · simp only [if_neg h, List.mem_cons, ih, List.mem_cons]
      constructor
      · rintro (h1 | ⟨h1, h2⟩)
        · exact ⟨Or.inl h1, h1 ▸ h⟩
        · exact ⟨Or.inr h1, fun hk => h2 (Or.inr hk)⟩
      · rintro ⟨h1 | h1, h2⟩
        · exact Or.inl h1
        · by_cases hy : k = y
          · exact Or.inl hy
          · refine Or.inr ⟨h1, fun hk => ?_⟩
            rcases hk with h3 | h3
            · exact hy h3
            · exact h2 h3

theorem mem_firstOccs {l : List κ} {k : κ} : k ∈ firstOccs l ↔ k ∈ l := by
  unfold firstOccs dedupBy
  rw [mem_dedupByAux_id]
  simp

theorem nodup_dedupByAux_id (seen : List κ) (l : List κ) :
    (dedupByAux id seen l).Nodup := by
  induction l generalizing seen with
  | nil => simp [dedupByAux]
  | cons y ys ih =>
    simp only [dedupByAux, id]
    by_cases h : y ∈ seen
    · simp only [if_pos h]; exact ih seen
    · simp only [if_neg h, List.nodup_cons]
      refine ⟨fun hy => ?_, ih (y :: seen)⟩
      exact (mem_dedupByAux_id.mp hy).2 (List.mem_cons_self _ _)

theorem nodup_firstOccs (l : List κ) : (firstOccs l).Nodup :=
  nodup_dedupByAux_id [] l

theorem map_dedupByAux (key : α → κ) (seen : List κ) (l : List α) :
    (dedupByAux key seen l).map key = dedupByAux id seen (l.map key) := by
  induction l generalizing seen with
  | nil => simp [dedupByAux]
  | cons y ys ih =>
    simp only [List.map_cons, dedupByAux, id]
    by_cases h : key y ∈ seen
    · simp only [if_pos h]; exact ih seen
    · simp only [if_neg h, List.map_cons, List.cons.injEq, true_and]
      exact ih (key y :: seen)

/-- The keys of a deduplicated table are the distinct key values. -/
theorem map_dedupBy (key : α → κ) (l : List α) :
    (dedupBy key l).map key = firstOccs (l.map key) :=
  map_dedupByAux key [] l

theorem length_dedupBy (key : α → κ) (l : List α) :
    (dedupBy key l).length = (firstOccs (l.map key)).length := by
  rw [← map_dedupBy key l, List.length_map]

theorem length_filter_or_disjoint (p q : α → Bool) (l : List α)
    (hd : ∀ x ∈ l, ¬(p x = true ∧ q x = true)) :
    (l.filter (fun x => p x || q x)).length =
      (l.filter p).length + (l.filter q).length := by
  induction l with
  | nil => simp
  | cons y ys ih =>
    have hy := hd y (List.mem_cons_self _ _)
    have ihy := ih (fun x hx => hd x (List.mem_cons_of_mem _ hx))
    by_cases hp : p y = true
    · have hq : q y = false := by
        cases hqq : q y
        · rfl
        · exact absurd ⟨hp, hqq⟩ hy
      simp [List.filter_cons, hp, hq, ihy, Nat.add_right_comm]
    · have hp' : p y = false := by
        cases hpp : p y
        · rfl
        · exact absurd hpp hp
      by_cases hq : q y = true
      · simp [List.filter_cons, hp', hq, ihy, Nat.add_assoc]
      · have hq' : q y = false := by
          cases hqq : q y
          · rfl
          · exact absurd hqq hq
        simp [List.filter_cons, hp', hq', ihy]

/-- Boolean list membership (kept as a plain function so that filters over
it do not depend on `Decidable` instances). -/
def memb (k : κ) : List κ → Bool
  | [] => false
  | x :: xs => decide (k = x) || memb k xs

theorem memb_iff {k : κ} {l : List κ} : memb k l = true ↔ k ∈ l := by
  induction l with
  | nil => simp [memb]
  | cons y ys ih =>
    simp [memb, ih, List.mem_cons]

/-- Summing per-key match counts over a duplicate-free key list counts
exactly the elements whose key lies in the list. -/
theorem sum_filter_eq_over_keys (f : α → κ) (L : List α) :
    ∀ (ks : List κ), ks.Nodup →
      (ks.map (fun k => (L.filter (fun x => decide (f x = k))).length)).sum =
        (L.filter (fun x => memb (f x) ks)).length := by
  intro ks
  induction ks with
  | nil =>
    intro _
    simp [memb]
  | cons k rest ih =>
    intro hnd
    rw [List.nodup_cons] at hnd
    have hsplit :
        (L.filter (fun x => memb (f x) (k :: rest))).length =
          (L.filter (fun x => decide (f x = k))).length +
            (L.filter (fun x => memb (f x) rest)).length := by
      have hcong : L.filter (fun x => memb (f x) (k :: rest)) =
          L.filter (fun x => decide (f x = k) || memb (f x) rest) := by
        apply List.filter_congr
        intro x _
        rfl
      rw [hcong]
      apply length_filter_or_disjoint
      intro x _ hx
      rcases hx with ⟨h1, h2⟩
      rw [decide_eq_true_iff] at h1
      rw [memb_iff] at h2
      exact hnd.1 (h1 ▸ h2)
    simp only [List.map_cons, List.sum_cons, hsplit, ih hnd.2]

theorem cnt_eq_zero_of_not_mem {l : List κ} {k : κ} (h : k ∉ l) : cnt l k = 0 := by
  unfold cnt
  rw [List.length_eq_zero]
  rw [List.filter_eq_nil_iff]
  intro x hx
  simp only [decide_eq_true_iff]
  intro he
  exact h (he ▸ hx)

theorem filter_mem_eq_self {l : List α} {p : α → Bool}
    (h : ∀ x ∈ l, p x = true) : l.filter p = l := by
  induction l with
  | nil => simp
  | cons y ys ih =>
    rw [List.filter_cons, if_pos (h y (List.mem_cons_self _ _))]
    rw [ih (fun x hx => h x (List.mem_cons_of_mem _ hx))]

/-- The group sizes of `tally` sum to the length of the list. -/
theorem sum_cnt_firstOccs (l : List κ) :
    ((firstOccs l).map (fun k => cnt l k)).sum = l.length := by
  have h := sum_filter_eq_over_keys (fun x => x) l (firstOccs l) (nodup_firstOccs l)
  simp only [cnt]
  rw [h]
  have hall : ∀ x ∈ l, memb x (firstOccs l) = true := by
    intro x hx
    rw [memb_iff, mem_firstOccs]
    exact hx
  rw [filter_mem_eq_self hall]

theorem alookup_map_keyed (g : κ → β) (k : κ) :
    ∀ (keys : List κ),
      alookup (keys.map (fun k₀ => (k₀, g k₀))) k =
        if k ∈ keys then some (g k) else none := by
  intro keys
  induction keys with
  | nil => simp [alookup]
  | cons y ys ih =>
    simp only [List.map_cons, alookup]
    by_cases h : k = y
    · simp [h, List.mem_cons]
    · simp only [if_neg h, ih, List.mem_cons]
      by_cases h2 : k ∈ ys
      · simp [h2, h]
      · simp [h2, h]

/-- Left-merge lookup into a `groupby().size()` table, with `fillna(0)`,
recovers the plain occurrence count. -/
theorem alookup_tally_getD (l : List κ) (k : κ) :
    ((alookup (tally l) k).getD 0) = cnt l k := by
  unfold tally
  rw [alookup_map_keyed]
  by_cases h : k ∈ firstOccs l
  · simp [h]
  · rw [if_neg h]
    rw [cnt_eq_zero_of_not_mem (fun hk => h (mem_firstOccs.mpr hk))]
    rfl

theorem cnt_filterMap (f : α → Option κ) (l : List α) (k : κ) :
    cnt (l.filterMap f) k =
      (l.filter (fun x => decide (f x = some k))).length := by
  induction l with
  | nil => simp [cnt]
  | cons y ys ih =>
    cases hy : f y with
    | none =>
      simp only [cnt] at ih ⊢
      simp only [List.filterMap_cons, hy, List.filter_cons]
      simp [ih]
    | some v =>
      simp only [cnt] at ih ⊢
      simp only [List.filterMap_cons, hy, List.filter_cons]
      by_cases hv : v = k <;> simp [hv, ih]

theorem cnt_map (f : α → κ) (l : List α) (k : κ) :
    cnt (l.map f) k = (l.filter (fun x => decide (f x = k))).length := by
  induction l with
  | nil => simp [cnt]
  | cons y ys ih =>
    simp only [cnt] at ih ⊢
    simp only [List.map_cons, List.filter_cons]
    by_cases h : f y = k <;> simp [h, ih]

theorem length_filterMap_all_some (f : α → Option β) (l : List α)
    (h : ∀ x ∈ l, f x ≠ none) : (l.filterMap f).length = l.length := by
  induction l with
  | nil => simp
  | cons y ys ih =>
    cases hy : f y with
    | none => exact absurd hy (h y (List.mem_cons_self _ _))
    | some v =>
      simp only [List.filterMap_cons, hy, List.length_cons]
      rw [ih (fun x hx => h x (List.mem_cons_of_mem _ hx))]

theorem length_filter_eq_length_iff (p : α → Bool) (l : List α) :
    (l.filter p).length = l.length ↔ ∀ x ∈ l, p x = true := by
  constructor
  · intro h
    have := List.Sublist.eq_of_length (List.filter_sublist l) h
    intro x hx
    rw [← this] at hx
    exact List.of_mem_filter hx
  · intro h
    rw [filter_mem_eq_self h]

end ListOps

/-! ### NaN-skipping aggregation (pandas `min` / `max` / `sum` on a column
with missing values) -/

/-- Combine two optional values with `min`, skipping missing values, the way
pandas `min` skips NaN. -/
def optMin2 : Option Int → Option Int → Option Int
  | none, b => b
  | some a, none => some a
  | some a, some b => some (min a b)

/-- Combine two optional values with `max`, skipping missing values. -/
def optMax2 : Option Int → Option Int → Option Int
  | none, b => b
  | some a, none => some a
  | some a, some b => some (max a b)

/-- pandas `min` over a column with missing values: `none` iff every entry is
missing. -/
def listMinO (l : List (Option Int)) : Option Int := l.foldr optMin2 none

/-- pandas `max` over a column with missing values. -/
def listMaxO (l : List (Option Int)) : Option Int := l.foldr optMax2 none

/-- pandas `sum` over a column with missing values: NaN entries are skipped
and an all-missing column sums to `0`. -/
def optSum (l : List (Option Int)) : Int := (l.filterMap id).sum

theorem optMin2_assoc (a b c : Option Int) :
    optMin2 (optMin2 a b) c = optMin2 a (optMin2 b c) := by
  cases a <;> cases b <;> cases c <;> simp [optMin2, min_assoc]

theorem optMax2_assoc (a b c : Option Int) :
    optMax2 (optMax2 a b) c = optMax2 a (optMax2 b c) := by
  cases a <;> cases b <;> cases c <;> simp [optMax2, max_assoc]

theorem optMin2_none_right (a : Option Int) : optMin2 a none = a := by
  cases a <;> rfl

theorem optMax2_none_right (a : Option Int) : optMax2 a none = a := by
  cases a <;> rfl

theorem optMin2_self (a : Option Int) : optMin2 a a = a := by
  cases a <;> simp [optMin2]

theorem optMax2_self (a : Option Int) : optMax2 a a = a := by
  cases a <;> simp [optMax2]

theorem foldr_optMin2_eq (l : List (Option Int)) (z : Option Int) :
    l.foldr optMin2 z = optMin2 (listMinO l) z := by
  induction l with
  | nil => simp [listMinO, optMin2]
  | cons y ys ih => simp [listMinO, List.foldr_cons, ih, optMin2_assoc]

theorem foldr_optMax2_eq (l : List (Option Int)) (z : Option Int) :
    l.foldr optMax2 z = optMax2 (listMaxO l) z := by
  induction l with
  | nil => simp [listMaxO, optMax2]
  | cons y ys ih => simp [listMaxO, List.foldr_cons, ih, optMax2_assoc]

theorem listMinO_append (a b : List (Option Int)) :
    listMinO (a ++ b) = optMin2 (listMinO a) (listMinO b) := by
  unfold listMinO
  rw [List.foldr_append, foldr_optMin2_eq]
  rfl

theorem listMaxO_append (a b : List (Option Int)) :
    listMaxO (a ++ b) = optMax2 (listMaxO a) (listMaxO b) := by
  unfold listMaxO
  rw [List.foldr_append, foldr_optMax2_eq]
  rfl

theorem listMinO_self_append (l : List (Option Int)) :
    listMinO (l ++ l) = listMinO l := by
  rw [listMinO_append, optMin2_self]

theorem listMaxO_self_append (l : List (Option Int)) :
    listMaxO (l ++ l) = listMaxO l := by
  rw [listMaxO_append, optMax2_self]

theorem optSum_append (a b : List (Option Int)) :
    optSum (a ++ b) = optSum a + optSum b := by
  unfold optSum
  rw [List.filterMap_append, List.sum_append]

theorem listMaxO_eq_none {l : List (Option Int)}
    (h : ∀ x ∈ l, x = none) : listMaxO l = none := by
  induction l with
  | nil => rfl
  | cons y ys ih =>
    have hy := h y (List.mem_cons_self _ _)
    simp only [listMaxO, List.foldr_cons] at *
    rw [hy, ih (fun x hx => h x (List.mem_cons_of_mem _ hx))]
    rfl

theorem optSum_eq_zero {l : List (Option Int)}
    (h : ∀ x ∈ l, x = none) : optSum l = 0 := by
  unfold optSum
  have : l.filterMap id = [] := by
    rw [List.filterMap_eq_nil_iff]
    intro x hx
    simp [h x hx]
  rw [this]
  rfl

theorem listMinO_le_of_mem {l : List (Option Int)} {v : Int}
    (hv : some v ∈ l) : ∃ m, listMinO l = some m ∧ m ≤ v := by
  induction l with
  | nil => simp at hv
  | cons y ys ih =>
    simp only [listMinO, List.foldr_cons]
    rcases List.mem_cons.mp hv with h1 | h1
    · cases hys : ys.foldr optMin2 none with
      | none => exact ⟨v, by rw [← h1]; exact ⟨rfl, le_refl v⟩⟩
      | some m =>
        refine ⟨min v m, ?_, min_le_left _ _⟩
        rw [← h1]
        rfl
    · rcases ih h1 with ⟨m, hm, hmv⟩
      unfold listMinO at hm
      rw [hm]
      cases y with
      | none => exact ⟨m, rfl, hmv⟩
      | some a => exact ⟨min a m, rfl, le_trans (min_le_right _ _) hmv⟩

theorem le_listMaxO_of_mem {l : List (Option Int)} {v : Int}
    (hv : some v ∈ l) : ∃ m, listMaxO l = some m ∧ v ≤ m := by
  induction l with
  | nil => simp at hv
  | cons y ys ih =>
    simp only [listMaxO, List.foldr_cons]
    rcases List.mem_cons.mp hv with h1 | h1
    · cases hys : ys.foldr optMax2 none with
      | none => exact ⟨v, by rw [← h1]; exact ⟨rfl, le_refl v⟩⟩
      | some m =>
        refine ⟨max v m, ?_, le_max_left _ _⟩
        rw [← h1]
        rfl
    · rcases ih h1 with ⟨m, hm, hmv⟩
      unfold listMaxO at hm
      rw [hm]
      cases y with
      | none => exact ⟨m, rfl, hmv⟩
      | some a => exact ⟨max a m, rfl, le_trans hmv (le_max_right _ _)⟩

/-- Dropping from a key list one key whose associated optional value is
missing does not change the defined values collected from the keys. -/
theorem filterMap_map_drop_key {κ : Type} [DecidableEq κ]
    (f : κ → Option Int) (a : κ) (hfa : f a = none) (keys : List κ) :
    ((keys.map f).filterMap id) =
      (((keys.filter (fun k => decide (k ≠ a))).map f).filterMap id) := by
  induction keys with
  | nil => rfl
  | cons y ys ih =>
    by_cases hy : y = a
    · subst hy
      simp only [List.map_cons, List.filterMap_cons, hfa, List.filter_cons]
      have : (decide (y ≠ y)) = false := by simp
      simp [this, ih]
    · simp only [List.map_cons, List.filterMap_cons, List.filter_cons]
      have : (decide (y ≠ a)) = true := by simp [hy]
      rw [this]
      simp only [if_true, List.map_cons, List.filterMap_cons]
      cases hfy : f y <;> simp [ih]

/-! ### The metric pipeline (`SAFE.py` lines 48–90) -/

/-- `{mean, min, max}` of a per-animal statistic, as the dashboard displays
it.  `mean` is a rational (`none` when there is no data); `smin`/`smax` are
integer day counts (`none` when there is no data). -/
structure Stats where
  mean : Option Rat
  smin : Option Int
  smax : Option Int
deriving DecidableEq

/-- Mean / min / max of a fully defined column of day counts. -/
def statsOf (l : List Int) : Stats :=
  { mean := if l.length = 0 then none else some ((l.sum : Rat) / (l.length : Rat))
    smin := listMinO (l.map some)
    smax := listMaxO (l.map some) }

/-- `total_people = df['PID'].nunique()` (line 48). -/
def total_people (df : List Record) : Nat :=
  (firstOccs (df.map Record.pid)).length

/-- `total_animals = df['Animal #'].nunique()` (line 49). -/
def total_animals (df : List Record) : Nat :=
  (firstOccs (df.map Record.animalId)).length

/-- `df.drop_duplicates('Animal #')` — one representative row per animal,
first occurrence kept (lines 52, 78, 89). -/
def dedupAnimals (df : List Record) : List Record :=
  dedupBy Record.animalId df

/-- `df.drop_duplicates('Animal #')['Animal Type'].value_counts()` (line 52):
counts of distinct animals per type, dropping missing types the way
`value_counts` drops NaN.  (Keys are kept in first-occurrence order; the
descending-count presentation order of `value_counts` plays no role in the
properties below.) -/
def animal_breakdown (df : List Record) : List (String × Nat) :=
  tally ((dedupAnimals df).filterMap Record.animalType)

/-- Sum of all `animalTypeBreakdown` counts. -/
def breakdownTotal (df : List Record) : Nat :=
  ((animal_breakdown df).map Prod.snd).sum

/-- The rows of one animal's group (`df.groupby('Animal #')`). -/
def rowsOf (df : List Record) (a : String) : List Record :=
  df.filter (fun r => decide (r.animalId = a))

/-- `'Intake Date': 'min'` within an animal's group (line 56), skipping NaT. -/
def minIntake (df : List Record) (a : String) : Option Int :=
  listMinO ((rowsOf df a).map Record.intakeDate)

/-- `'Foster End Date': 'max'` within an animal's group (line 57), skipping
NaT. -/
def maxEnd (df : List Record) (a : String) : Option Int :=
  listMaxO ((rowsOf df a).map Record.fosterEndDate)

/-- `'Days in Our Care' = Foster End Date(max) − Intake Date(min)` (line 59):
missing (`NaN`) when either aggregate is missing. -/
def care_days (df : List Record) (a : String) : Option Int := do
  let e ← maxEnd df a
  let i ← minIntake df a
  pure (e - i)

/-- The group keys of `df.groupby('Animal #')`, i.e. the distinct animal
ids. -/
def animalKeys (df : List Record) : List String :=
  firstOccs (df.map Record.animalId)

/-- The per-animal `'Days in Our Care'` column. -/
def careList (df : List Record) : List (Option Int) :=
  (animalKeys df).map (care_days df)

/-- The defined entries of the `'Days in Our Care'` column — exactly the
values pandas' NaN-skipping `mean`/`min`/`max` aggregate over. -/
def careVals (df : List Record) : List Int :=
  (careList df).filterMap id

/-- `avg/min/max days in our care` (lines 60–62). -/
def careStats (df : List Record) : Stats :=
  statsOf (careVals df)

/-- `'Foster Duration' = Foster End Date − Foster Start Date` per row
(line 65); missing when either date is missing. -/
def fosterDur (r : Record) : Option Int := do
  let e ← r.fosterEndDate
  let s ← r.fosterStartDate
  pure (e - s)

/-- `df.groupby('Animal #')['Foster Duration'].sum()` for one animal
(line 66): a NaN-skipping sum, so an all-missing group sums to `0`. -/
def fosterTotalFor (df : List Record) (a : String) : Int :=
  optSum ((rowsOf df a).map fosterDur)

/-- The per-animal foster-duration totals (always defined integers). -/
def fosterList (df : List Record) : List Int :=
  (animalKeys df).map (fosterTotalFor df)

/-- `avg/min/max days in foster` (lines 67–69). -/
def fosterStats (df : List Record) : Stats :=
  statsOf (fosterList df)

/-- `df[(df['Pre-Altered'] == 'No') & (df['Current Altered'] == 'Yes')]`
(line 72). -/
def alteredFilter (df : List Record) : List Record :=
  df.filter (fun r => decide (r.preAltered = "No" ∧ r.currentAltered = "Yes"))

/-- `altered_animals.drop_duplicates('Animal #')` (line 73). -/
def alteredUnique (df : List Record) : List Record :=
  dedupBy Record.animalId (alteredFilter df)

/-- The `(Animal Type, Gender)` group keys of line 74; rows whose type is
missing are dropped, as `groupby` drops NaN keys. -/
def spayPairs (df : List Record) : List (String × String) :=
  (alteredUnique df).filterMap
    (fun r => r.animalType.map (fun t => (t, r.gender)))

/-- `Gender → Procedure` map of line 75 (`F → Spay`, `M → Neuter`, anything
else unmapped). -/
def procOf (g : String) : Option String :=
  if g = "F" then some "Spay" else if g = "M" then some "Neuter" else none

/-- `spay_neuter` table (lines 74–75): rows of
`(animalType, gender, count, procedure)`, one per distinct
`(Animal Type, Gender)` pair among the filtered, deduplicated animals. -/
def spay_neuter (df : List Record) : List (String × String × Nat × Option String) :=
  (firstOccs (spayPairs df)).map
    (fun p => (p.1, p.2, cnt (spayPairs df) p, procOf p.2))

/-- Sum of all `spayNeuterTable` counts. -/
def spayTotal (df : List Record) : Nat :=
  ((spay_neuter df).map (fun row => row.2.2.1)).sum

/-- `df['Intake Year'] = df['Intake Date'].dt.year` (line 41), for a given
calendar-year function on day ordinals; `NaT ↦ NaN`. -/
def intakeYear (yearOf : Int → Int) (r : Record) : Option Int :=
  r.intakeDate.map yearOf

/-- The intake years of the deduplicated animals (defined entries only, as
`groupby` drops NaN keys). -/
def intakeYears (yearOf : Int → Int) (df : List Record) : List Int :=
  (dedupAnimals df).filterMap (intakeYear yearOf)

/-- The fixed reporting window of line 80. -/
def windowYears : List Int := [2022, 2023, 2024, 2025]

/-- The bar label of lines 84–86. -/
def yLabel (y : Int) : String :=
  toString y ++
    (if y = 2022 then "\n(Data starts July)"
     else if y = 2025 then "\n(Data ends today)" else "")

/-- `animal_yearly` (lines 78–86): `groupby('Intake Year').size()` on the
deduplicated animals, left-merged onto the fixed year list with `fillna(0)`,
then labelled. -/
def animal_yearly (yearOf : Int → Int) (df : List Record) :
    List (Int × String × Nat) :=
  windowYears.map
    (fun y => (y, yLabel y, (alookup (tally (intakeYears yearOf df)) y).getD 0))

/-- Distinct animals whose representative intake year is `y`. -/
def countYear (yearOf : Int → Int) (df : List Record) (y : Int) : Nat :=
  ((dedupAnimals df).filter (fun r => decide (intakeYear yearOf r = some y))).length

/-- Sum of the four `yearlyIntake` counts. -/
def yearlySum (yearOf : Int → Int) (df : List Record) : Nat :=
  ((animal_yearly yearOf df).map (fun row => row.2.2)).sum

/-- The normalized zip string of a record (line 44). -/
def zipStr (r : Record) : String := r.zipcode.astype_str

/-- `zip_counts` (line 89): distinct animals per normalized zip string. -/
def zip_counts (df : List Record) : List (String × Nat) :=
  tally ((dedupAnimals df).map zipStr)

/-- Distinct animals whose representative zip string equals `z`. -/
def matchCount (df : List Record) (z : String) : Nat :=
  ((dedupAnimals df).filter (fun r => decide (zipStr r = z))).length

/-- `map_df` (line 90): left merge from the geometry table onto
`zip_counts` on the normalized zip strings, `fillna(0)` — one output row per
geometry row. -/
def map_df (geo : List GeoRow) (df : List Record) : List (GeoRow × Nat) :=
  geo.map (fun g => (g, (alookup (zip_counts df) g.zcta.astype_str).getD 0))

/-- Sum of all `zipAggregate` counts. -/
def zipSum (geo : List GeoRow) (df : List Record) : Nat :=
  ((map_df geo df).map Prod.snd).sum

/-! ### Pipeline lemmas -/

theorem mem_of_mem_dedupAnimals {df : List Record} {r : Record}
    (h : r ∈ dedupAnimals df) : r ∈ df :=
  dedupByAux_subset h

theorem total_animals_eq_length_dedup (df : List Record) :
    total_animals df = (dedupAnimals df).length :=
  (length_dedupBy Record.animalId df).symm

/-- The zero-filled left-merge lookup of line 90 recovers the distinct-animal
count of each zone's zip. -/
theorem zip_lookup_eq_matchCount (df : List Record) (z : String) :
    (alookup (zip_counts df) z).getD 0 = matchCount df z := by
  unfold zip_counts matchCount
  rw [alookup_tally_getD, cnt_map]

/-- The zero-filled left-merge lookup of line 81 recovers the distinct-animal
count of each intake year. -/
theorem year_lookup_eq_countYear (yearOf : Int → Int) (df : List Record)
    (y : Int) :
    (alookup (tally (intakeYears yearOf df)) y).getD 0 = countYear yearOf df y := by
  unfold intakeYears countYear
  rw [alookup_tally_getD, cnt_filterMap]

/-- `map_df` row by row: one row per geometry row, holding that zone's
distinct-animal count (0 when nothing matches). -/
theorem map_df_eq (geo : List GeoRow) (df : List Record) :
    map_df geo df = geo.map (fun g => (g, matchCount df g.zcta.astype_str)) := by
  unfold map_df
  apply List.map_congr_left
  intro g _
  rw [zip_lookup_eq_matchCount]

/-- The four `yearlyIntake` counts sum to the number of distinct animals
whose representative intake year lies in the window. -/
theorem yearlySum_eq (yearOf : Int → Int) (df : List Record) :
    yearlySum yearOf df =
      ((dedupAnimals df).filter
        (fun r => memb (intakeYear yearOf r) (windowYears.map some))).length := by
  have hnd : (windowYears.map some).Nodup := by decide
  have h := sum_filter_eq_over_keys (intakeYear yearOf) (dedupAnimals df)
    (windowYears.map some) hnd
  rw [List.map_map] at h
  unfold yearlySum animal_yearly
  rw [List.map_map]
  have h2 : (windowYears.map
        ((fun row => row.2.2) ∘ fun y =>
          (y, yLabel y, (alookup (tally (intakeYears yearOf df)) y).getD 0))) =
      (windowYears.map
        ((fun k => ((dedupAnimals df).filter
          (fun x => decide (intakeYear yearOf x = k))).length) ∘ some)) := by
    apply List.map_congr_left
    intro y _
    simp only [Function.comp_apply]
    rw [year_lookup_eq_countYear]
    unfold countYear
    rfl
  rw [h2, h]

/-- The `zipAggregate` counts sum to the per-zone distinct-animal counts. -/
theorem zipSum_eq (geo : List GeoRow) (df : List Record) :
    zipSum geo df =
      (geo.map (fun g => matchCount df g.zcta.astype_str)).sum := by
  unfold zipSum
  rw [map_df_eq, List.map_map]
  rfl

/-- `spayNeuterTable` counts sum to the number of distinct filtered animals
with a defined type. -/
theorem spayTotal_eq (df : List Record) :
    spayTotal df = (spayPairs df).length := by
  unfold spayTotal spay_neuter
  rw [List.map_map]
  exact sum_cnt_firstOccs (spayPairs df)

/-- `animalTypeBreakdown` counts sum to the number of distinct animals with
a defined type. -/
theorem breakdownTotal_eq (df : List Record) :
    breakdownTotal df = ((dedupAnimals df).filterMap Record.animalType).length := by
  unfold breakdownTotal animal_breakdown tally
  rw [List.map_map]
  exact sum_cnt_firstOccs _

/-! ### Effect of duplicating every record -/

theorem dedupAnimals_append_self (df : List Record) :
    dedupAnimals (df ++ df) = dedupAnimals df :=
  dedupBy_append_self Record.animalId df

theorem firstOccs_append_self {κ : Type} [DecidableEq κ] (l : List κ) :
    firstOccs (l ++ l) = firstOccs l :=
  dedupBy_append_self id l

theorem animalKeys_append_self (df : List Record) :
    animalKeys (df ++ df) = animalKeys df := by
  unfold animalKeys
  rw [List.map_append, firstOccs_append_self]

theorem rowsOf_append (df₁ df₂ : List Record) (a : String) :
    rowsOf (df₁ ++ df₂) a = rowsOf df₁ a ++ rowsOf df₂ a :=
  List.filter_append _ _

theorem care_days_append_self (df : List Record) (a : String) :
    care_days (df ++ df) a = care_days df a := by
  unfold care_days maxEnd minIntake
  rw [rowsOf_append, List.map_append, List.map_append,
    listMaxO_self_append, listMinO_self_append]

theorem fosterTotalFor_append_self (df : List Record) (a : String) :
    fosterTotalFor (df ++ df) a = 2 * fosterTotalFor df a := by
  unfold fosterTotalFor
  rw [rowsOf_append, List.map_append, optSum_append, two_mul]

theorem alteredUnique_append_self (df : List Record) :
    alteredUnique (df ++ df) = alteredUnique df := by
  unfold alteredUnique alteredFilter
  rw [List.filter_append]
  exact dedupBy_append_self _ _

/-! ### Claims -/

/-- C4: `yearlyIntake` has exactly 4 rows, one per year 2022–2025 in that
order, each holding the distinct-animal count of that year (0 when absent);
the four counts together count exactly the animals whose representative
intake year lies in the window, so out-of-window records contribute to no
row. -/
theorem claim_C4 (yearOf : Int → Int) (df : List Record) :
    animal_yearly yearOf df =
      [(2022, yLabel 2022, countYear yearOf df 2022),
       (2023, yLabel 2023, countYear yearOf df 2023),
       (2024, yLabel 2024, countYear yearOf df 2024),
       (2025, yLabel 2025, countYear yearOf df 2025)] ∧
    yearlySum yearOf df =
      ((dedupAnimals df).filter
        (fun r => memb (intakeYear yearOf r) (windowYears.map some))).length := by
  refine ⟨?_, yearlySum_eq yearOf df⟩
  unfold animal_yearly windowYears
  simp only [List.map_cons, List.map_nil, year_lookup_eq_countYear]

/-- C5: `zipAggregate` has exactly one row per geometry-table row, holding
that zone's distinct-animal count (0 when no animal's zip matches); animal
counts whose zip matches no zone produce no row and no error. -/
theorem claim_C5 (geo : List GeoRow) (df : List Record) :
    map_df geo df = geo.map (fun g => (g, matchCount df g.zcta.astype_str)) ∧
    (map_df geo df).length = geo.length := by
  refine ⟨map_df_eq geo df, ?_⟩
  unfold map_df
  rw [List.length_map]

/-- C6: when every record's intake year lies in `{2022, …, 2025}`, the four
`yearlyIntake` counts sum to `totalAnimals`. -/
theorem claim_C6 (yearOf : Int → Int) (df : List Record)
    (h : ∀ r ∈ df, intakeYear yearOf r ∈ windowYears.map some) :
    yearlySum yearOf df = total_animals df := by
  rw [yearlySum_eq]
  have hall : ∀ r ∈ dedupAnimals df,
      memb (intakeYear yearOf r) (windowYears.map some) = true := by
    intro r hr
    rw [memb_iff]
    exact h r (mem_of_mem_dedupAnimals hr)
  rw [filter_mem_eq_self hall, total_animals_eq_length_dedup]

def exC6 : List Record :=
  [⟨"P1", "A1", some "Dog", "M", "No", "Yes", some 0, some 0, some 9,
    RawField.str "14201"⟩]

theorem claim_C6_witness :
    yearlySum (fun _ => 2023) exC6 = total_animals exC6 :=
  claim_C6 (fun _ => 2023) exC6 (by decide)

/-- C10: when every record carries a non-null `animalType`, the
`animalTypeBreakdown` counts sum to exactly `totalAnimals` (each distinct
animal is classified once, by its first-occurring record). -/
theorem claim_C10 (df : List Record)
    (h : ∀ r ∈ df, r.animalType ≠ none) :
    breakdownTotal df = total_animals df := by
  rw [breakdownTotal_eq, total_animals_eq_length_dedup]
  exact length_filterMap_all_some _ _
    (fun r hr => h r (mem_of_mem_dedupAnimals hr))

def exC10 : List Record :=
  [⟨"P1", "A1", some "Dog", "M", "No", "Yes", some 0, some 0, some 9,
    RawField.str "14201"⟩,
   ⟨"P2", "A2", some "Cat", "F", "No", "Yes", some 1, some 2, some 5,
    RawField.str "14202"⟩,
   ⟨"P3", "A1", some "Dog", "M", "No", "Yes", some 0, some 12, some 20,
    RawField.str "14201"⟩]

theorem claim_C10_witness : breakdownTotal exC10 = total_animals exC10 :=
  claim_C10 exC10 (by decide)

/-- C8: an animal enters `spayNeuterTable` only through a record with
`preAltered = No` and `currentAltered = Yes`; an animal all of whose records
have `preAltered = Yes` appears in no row even when `currentAltered = Yes`;
and (given defined types) the table's counts sum to the number of distinct
counted animals, so each counted animal contributes exactly once. -/
theorem claim_C8 (df : List Record)
    (htype : ∀ r ∈ df, r.animalType ≠ none) :
    spayTotal df = (alteredUnique df).length ∧
    (∀ a : String, (∀ r ∈ df, r.animalId = a → r.preAltered = "Yes") →
      ∀ r ∈ alteredUnique df, r.animalId ≠ a) ∧
    (∀ r ∈ alteredUnique df, r.preAltered = "No" ∧ r.currentAltered = "Yes") := by
  have hmem : ∀ r ∈ alteredUnique df,
      r ∈ df ∧ r.preAltered = "No" ∧ r.currentAltered = "Yes" := by
    intro r hr
    have hf : r ∈ alteredFilter df := dedupByAux_subset hr
    rw [alteredFilter, List.mem_filter] at hf
    obtain ⟨hrdf, hp⟩ := hf
    rw [decide_eq_true_iff] at hp
    exact ⟨hrdf, hp⟩
  refine ⟨?_, ?_, ?_⟩
  · rw [spayTotal_eq]
    unfold spayPairs
    apply length_filterMap_all_some
    intro r hr
    have ht := htype r (hmem r hr).1
    cases hT : r.animalType with
    | none => exact absurd hT ht
    | some t => simp [hT]
  · intro a ha r hr heq
    have h1 := (hmem r hr).2.1
    have h2 := ha r (hmem r hr).1 heq
    rw [h1] at h2
    exact absurd h2 (by decide)
  · intro r hr
    exact (hmem r hr).2

def exC8 : List Record :=
  [⟨"P1", "A1", some "Dog", "M", "No", "Yes", some 0, some 0, some 9,
    RawField.str "14201"⟩,
   ⟨"P2", "A2", some "Cat", "F", "Yes", "Yes", some 1, some 2, some 5,
    RawField.str "14202"⟩,
   ⟨"P3", "A1", some "Dog", "M", "No", "Yes", some 0, some 12, some 20,
    RawField.str "14201"⟩]

theorem claim_C8_witness : spayTotal exC8 = (alteredUnique exC8).length :=
  (claim_C8 exC8 (by decide)).1

/-- C9 (amended): provided the geometry table's coerced zip identifiers are
pairwise distinct, the `zipAggregate` counts sum to at most `totalAnimals`,
with equality exactly when every animal's representative zip matches some
geometry zone. -/
theorem claim_C9 (geo : List GeoRow) (df : List Record)
    (hnd : (geo.map (fun g => g.zcta.astype_str)).Nodup) :
    zipSum geo df ≤ total_animals df ∧
    (zipSum geo df = total_animals df ↔
      ∀ r ∈ dedupAnimals df,
        zipStr r ∈ geo.map (fun g => g.zcta.astype_str)) := by
  have hsum := sum_filter_eq_over_keys zipStr (dedupAnimals df)
    (geo.map (fun g => g.zcta.astype_str)) hnd
  have hz : zipSum geo df =
      ((dedupAnimals df).filter
        (fun x => memb (zipStr x) (geo.map (fun g => g.zcta.astype_str)))).length := by
    rw [zipSum_eq, ← hsum, List.map_map]
    rfl
  constructor
  · rw [hz, total_animals_eq_length_dedup]
    exact List.length_filter_le _ _
  · rw [hz, total_animals_eq_length_dedup,
      length_filter_eq_length_iff]
    constructor
    · intro hall r hr
      rw [← memb_iff]
      exact hall r hr
    · intro hall r hr
      rw [memb_iff]
      exact hall r hr

def exC9df : List Record :=
  [⟨"P1", "A1", some "Dog", "M", "No", "Yes", some 0, some 0, some 9,
    RawField.str "14201"⟩]

def exC9geo : List GeoRow :=
  [⟨RawField.str "14201", "poly1"⟩, ⟨RawField.str "14201", "poly2"⟩]

def exC9geoOk : List GeoRow :=
  [⟨RawField.str "14201", "poly1"⟩, ⟨RawField.str "14202", "poly2"⟩]

theorem claim_C9_witness : zipSum exC9geoOk exC9df ≤ total_animals exC9df :=
  (claim_C9 exC9geoOk exC9df (by decide)).1

/-- C9 counterexample: with a geometry table repeating the zone zip
`"14201"`, the `zipAggregate` counts sum to 2 while `totalAnimals = 1`, so
`Σ zipAggregate.count ≤ totalAnimals` fails as stated. -/
theorem claim_C9_cex : ¬ (zipSum exC9geo exC9df ≤ total_animals exC9df) := by
  decide

/-- C1 (amended): duplicating every record leaves `totalPeople`,
`totalAnimals`, `animalTypeBreakdown`, `careDurationStats`,
`spayNeuterTable`, `yearlyIntake` and `zipAggregate` unchanged, but not
`fosterDurationStats`: each animal's per-row foster-duration sum doubles. -/
theorem claim_C1 (df : List Record) :
    total_people (df ++ df) = total_people df ∧
    total_animals (df ++ df) = total_animals df ∧
    animal_breakdown (df ++ df) = animal_breakdown df ∧
    careStats (df ++ df) = careStats df ∧
    spay_neuter (df ++ df) = spay_neuter df ∧
    (∀ yearOf : Int → Int,
      animal_yearly yearOf (df ++ df) = animal_yearly yearOf df) ∧
    (∀ geo : List GeoRow, map_df geo (df ++ df) = map_df geo df) ∧
    (∀ a : String, fosterTotalFor (df ++ df) a = 2 * fosterTotalFor df a) := by
  refine ⟨?_, ?_, ?_, ?_, ?_, ?_, ?_, ?_⟩
  · unfold total_people
    rw [List.map_append, firstOccs_append_self]
  · unfold total_animals
    rw [List.map_append, firstOccs_append_self]
  · unfold animal_breakdown
    rw [dedupAnimals_append_self]
  · have hc : careList (df ++ df) = careList df := by
      unfold careList
      rw [animalKeys_append_self]
      apply List.map_congr_left
      intro a _
      exact care_days_append_self df a
    unfold careStats careVals
    rw [hc]
  · unfold spay_neuter spayPairs
    rw [alteredUnique_append_self]
  · intro yearOf
    unfold animal_yearly intakeYears
    rw [dedupAnimals_append_self]
  · intro geo
    unfold map_df zip_counts
    rw [dedupAnimals_append_self]
  · exact fosterTotalFor_append_self df

def exC1 : List Record :=
  [⟨"P1", "A1", some "Dog", "M", "No", "Yes", some 0, some 0, some 10,
    RawField.str "14201"⟩]

/-- C1 counterexample: on a one-record table with a 10-day foster placement,
duplicating the record doubles the per-animal foster-duration total, so
`fosterDurationStats` is not left unchanged as the claim states. -/
theorem claim_C1_cex :
    (fosterStats (exC1 ++ exC1)).smin = some 20 ∧
    (fosterStats exC1).smin = some 10 ∧
    (fosterStats (exC1 ++ exC1)).smin ≠ (fosterStats exC1).smin := by
  decide

/-- C2 (amended): for an animal all of whose records have a null
`fosterEndDate`, `careDurationDays` is undefined (`none`, i.e. "no data")
and contributes nothing to the values `careDurationStats` aggregates over —
but `fosterDurationDaysTotal` is the empty NaN-skipping sum `0`, and that
`0` is one of the values `fosterDurationStats` aggregates over. -/
theorem claim_C2 (df : List Record) (a : String)
    (hk : a ∈ animalKeys df)
    (h : ∀ r ∈ df, r.animalId = a → r.fosterEndDate = none) :
    care_days df a = none ∧
    careVals df =
      ((((animalKeys df).filter (fun k => decide (k ≠ a))).map
        (care_days df)).filterMap id) ∧
    fosterTotalFor df a = 0 ∧
    (0 : Int) ∈ fosterList df := by
  have hrows : ∀ r ∈ rowsOf df a, r.fosterEndDate = none := by
    intro r hr
    rw [rowsOf, List.mem_filter] at hr
    obtain ⟨hrdf, hra⟩ := hr
    rw [decide_eq_true_iff] at hra
    exact h r hrdf hra
  have hend : ∀ x ∈ (rowsOf df a).map Record.fosterEndDate, x = none := by
    intro x hx
    obtain ⟨r, hr, hrx⟩ := List.mem_map.mp hx
    rw [← hrx]
    exact hrows r hr
  have hmaxnone : maxEnd df a = none := listMaxO_eq_none hend
  have hcare : care_days df a = none := by
    unfold care_days
    rw [hmaxnone]
    rfl
  have hfostnone : ∀ x ∈ (rowsOf df a).map fosterDur, x = none := by
    intro x hx
    obtain ⟨r, hr, hrx⟩ := List.mem_map.mp hx
    rw [← hrx]
    unfold fosterDur
    rw [hrows r hr]
    rfl
  have hfost : fosterTotalFor df a = 0 := optSum_eq_zero hfostnone
  refine ⟨hcare, ?_, hfost, ?_⟩
  · exact filterMap_map_drop_key (care_days df) a hcare (animalKeys df)
  · rw [← hfost]
    exact List.mem_map.mpr ⟨a, hk, rfl⟩

def exC2 : List Record :=
  [⟨"P1", "A1", some "Dog", "M", "No", "Yes", some 0, some 0, none,
    RawField.str "14201"⟩]

theorem claim_C2_witness : care_days exC2 "A1" = none :=
  (claim_C2 exC2 "A1" (by decide) (by decide)).1

/-- C2 counterexample: for an animal whose only record has a null
`fosterEndDate`, the code's `fosterDurationDaysTotal` is `0` (the
NaN-skipping sum of an all-NaN group), and that `0` enters the
`fosterDurationStats` aggregates, contradicting the claimed "no data,
excluded from min/mean/max" representation. -/
theorem claim_C2_cex :
    fosterTotalFor exC2 "A1" = 0 ∧
    (fosterStats exC2).smin = some 0 ∧
    (fosterStats exC2).smax = some 0 := by
  decide

/-- C3 (amended): the coercion applied to both join sides is plain string
rendering — strings are kept verbatim (leading zeros are preserved only when
already present in string form), numbers are rendered without zero-padding
(`2134 ↦ "2134"`) — and the geographic join matches exactly the pairs whose
coerced strings are equal. -/
theorem claim_C3 :
    (∀ s : String, RawField.astype_str (RawField.str s) = s) ∧
    (∀ n : Int, RawField.astype_str (RawField.num n) = toString n) ∧
    RawField.astype_str (RawField.num 2134) = "2134" ∧
    (∀ (df : List Record) (geo : List GeoRow), ∀ p ∈ map_df geo df,
      p.2 = matchCount df p.1.zcta.astype_str) := by
  refine ⟨fun s => rfl, fun n => rfl, by decide, ?_⟩
  intro df geo p hp
  rw [map_df_eq] at hp
  obtain ⟨g, _, hg⟩ := List.mem_map.mp hp
  rw [← hg]

def exC3df : List Record :=
  [⟨"P1", "A1", some "Dog", "M", "No", "Yes", some 0, some 0, some 9,
    RawField.num 2134⟩]

def exC3geo : List GeoRow := [⟨RawField.str "02134", "poly"⟩]

theorem claim_C3_witness :
    ((⟨RawField.str "02134", "poly"⟩, 0) : GeoRow × Nat).2 =
      matchCount exC3df
        ((⟨RawField.str "02134", "poly"⟩ : GeoRow).zcta.astype_str) :=
  claim_C3.2.2.2 exC3df exC3geo (⟨RawField.str "02134", "poly"⟩, 0) (by decide)

/-- C3 counterexample: a record zip read as the number `2134` is coerced to
`"2134"`, not `"02134"`, so it does not join the geometry zone `"02134"` —
that zone's `zipAggregate` count stays `0` although the animal came from
zip 02134. -/
theorem claim_C3_cex :
    map_df exC3geo exC3df = [(⟨RawField.str "02134", "poly"⟩, 0)] ∧
    RawField.astype_str (RawField.num 2134) ≠ "02134" := by
  decide

/-- Well-formedness of one record's date pair: when a foster end date is
present, an intake date is present and is no later than the end date. -/
def endAfterIntake (r : Record) : Bool :=
  match r.fosterEndDate, r.intakeDate with
  | none, _ => true
  | some _, none => false
  | some e, some i => decide (i ≤ e)

/-- C7 (amended): for an animal with at least one record having a non-null
`fosterEndDate`, provided each of the animal's records with a non-null end
date also carries a non-null intake date no later than that end date,
`careDurationDays` is defined and `≥ 0`. -/
theorem claim_C7 (df : List Record) (a : String)
    (h1 : ∃ r, r ∈ df ∧ r.animalId = a ∧ r.fosterEndDate ≠ none)
    (h2 : ∀ r ∈ df, r.animalId = a → endAfterIntake r = true) :
    ∃ c, care_days df a = some c ∧ 0 ≤ c := by
  obtain ⟨r0, hr0df, hr0a, hr0e⟩ := h1
  have hwf := h2 r0 hr0df hr0a
  unfold endAfterIntake at hwf
  rcases hE : r0.fosterEndDate with _ | e0
  · exact absurd hE hr0e
  rcases hI : r0.intakeDate with _ | i0
  · rw [hE, hI] at hwf
    simp at hwf
  rw [hE, hI] at hwf
  simp only [decide_eq_true_iff] at hwf
  have hr0row : r0 ∈ rowsOf df a := by
    rw [rowsOf, List.mem_filter]
    exact ⟨hr0df, by simp [hr0a]⟩
  have hemem : some e0 ∈ (rowsOf df a).map Record.fosterEndDate :=
    List.mem_map.mpr ⟨r0, hr0row, hE⟩
  have himem : some i0 ∈ (rowsOf df a).map Record.intakeDate :=
    List.mem_map.mpr ⟨r0, hr0row, hI⟩
  obtain ⟨M, hM, heM⟩ := le_listMaxO_of_mem hemem
  obtain ⟨m, hm, hmi⟩ := listMinO_le_of_mem himem
  refine ⟨M - m, ?_, ?_⟩
  · unfold care_days maxEnd minIntake
    rw [hM, hm]
    rfl
  · have : m ≤ M := le_trans hmi (le_trans hwf heM)
    omega

def exC7good : List Record :=
  [⟨"P1", "A1", some "Dog", "M", "No", "Yes", some 3, some 3, some 8,
    RawField.str "14201"⟩]

theorem claim_C7_witness :
    ∃ c, care_days exC7good "A1" = some c ∧ 0 ≤ c :=
  claim_C7 exC7good "A1" (by decide) (by decide)

def exC7 : List Record :=
  [⟨"P1", "A1", some "Dog", "M", "No", "Yes", some 10, some 10, some 5,
    RawField.str "14201"⟩]

/-- C7 counterexample: a record whose foster end date (day 5) precedes its
intake date (day 10) has at least one non-null end date, yet the computed
`careDurationDays` is `-5 < 0`, so the claim fails as stated on arbitrary
inputs. -/
theorem claim_C7_cex :
    (∃ r, r ∈ exC7 ∧ r.animalId = "A1" ∧ r.fosterEndDate ≠ none) ∧
    care_days exC7 "A1" = some (-5) ∧ (-5 : Int) < 0 := by
  decide

end SAFE
